import Mathlib

/-!
Verification of the `fetchNext` combinator (src/fetch-next.ts) of the
asyncier repository.

`fetchNext` wraps an async iterable.  Its `next` method is

  next: () => {
    const next = pending ?? iterator.next();
    pending = new Promise(resolve =>
      next
        .then(() => resolve(iterator.next()))
        .catch(() => resolve(Promise.resolve({done: true, value: undefined})))
    );
    return next;
  }

We embed this shallowly.  A source is modelled as the sequence of outcomes
of successive `iterator.next()` calls (the iterator is stateful; call
number c has outcome `src c`).  The consumer is the supported sequential
one: it awaits each pull's promise before pulling again (the adapter is
documented as single-consumer).  Under that discipline the values returned
by the pulls are schedule independent; the only timing freedom left is
whether the prefetched call settles before or after the consumer's next
pull, which we model with a schedule oracle `sched : Nat → Bool`.

Promise reactions run in registration order.  Inside a pull the adapter
registers its `then`/`catch` on `next` before returning, and the consumer
can only register its own continuation on the returned promise afterwards,
so at each settlement the adapter's reaction (which performs the lookahead
`iterator.next()`) runs before the consumer receives the value.  The event
traces below encode exactly this order.
-/

set_option autoImplicit false

namespace FetchNext

/-- Outcome of one `iterator.next()` call on the source: a promise that
fulfils with an item (`done: false`), fulfils with end of sequence
(`done: true`), rejects with an error, or a synchronous throw from the
`next()` call itself (no promise is produced). -/
inductive SrcCall (α ε : Type) where
  | item  (v : α)
  | stop
  | fail  (e : ε)
  | raise (e : ε)
  deriving DecidableEq

/-- Settled value of a promise for an iterator result: an item, end of
sequence, or a rejection. -/
inductive PullRes (α ε : Type) where
  | item (v : α)
  | stop
  | fail (e : ε)
  deriving DecidableEq

/-- What one invocation of the adapter's `next` gives the consumer: the
(eventual) settled value of the returned promise, or a synchronous throw —
the latter can only happen on the very first pull, where `iterator.next()`
is called inline outside any promise callback. -/
inductive PullOut (α ε : Type) where
  | ret (r : PullRes α ε)
  | raised (e : ε)
  deriving DecidableEq

/-- Contents of the `pending` slot: a promise that adopted the result of an
upstream call (`fromCall`), or the neutralized promise produced by the
`catch` handler, already resolved to `{done: true}` with no upstream call
behind it (`neutral`). -/
inductive Pend (α ε : Type) where
  | fromCall (r : PullRes α ε)
  | neutral
  deriving DecidableEq

/-- The value a pending promise settles to. -/
def Pend.res {α ε : Type} : Pend α ε → PullRes α ε
  | .fromCall r => r
  | .neutral => .stop

/-- Adapter state between (settled) pulls: the `pending` slot — `none`
before the first pull, mirroring the uninitialized `let pending` — and the
number of `iterator.next()` calls issued so far. -/
structure AState (α ε : Type) where
  pending : Option (Pend α ε)
  calls : Nat
  deriving DecidableEq

/-- Observable events, in global order: `pull j` — the consumer invokes the
adapter's `next` for the j-th time; `issue c` — the adapter performs the
c-th `iterator.next()` call; `settle c` — that call's promise settles (for
a synchronously throwing call, the throw itself); `deliver j` — the
consumer receives pull j's outcome. -/
inductive Ev where
  | pull (j : Nat)
  | issue (c : Nat)
  | settle (c : Nat)
  | deliver (j : Nat)
  deriving DecidableEq

variable {α ε : Type}

/-- The outcome the consumer would see when pulling the source directly. -/
def toRes : SrcCall α ε → PullOut α ε
  | .item v => .ret (.item v)
  | .stop => .ret .stop
  | .fail e => .ret (.fail e)
  | .raise e => .raised e

/-- Contents of the `pending` slot after the reaction
`next.then(() => resolve(iterator.next())).catch(() => resolve({done: true}))`
runs and performs call c: the slot's promise adopts the call's promise
(items, done and rejections pass through), while a synchronous throw inside
the `then` callback rejects the then-chain and the `catch` resolves the
slot to `{done: true}`, dropping the error. -/
def pendAfterCall (src : Nat → SrcCall α ε) (c : Nat) : Pend α ε :=
  match src c with
  | .item v => .fromCall (.item v)
  | .stop => .fromCall .stop
  | .fail e => .fromCall (.fail e)
  | .raise _ => .neutral

/-- Events of issuing call c from inside the `then` callback: a
synchronously throwing `next()` begins and completes (by throwing) at
once; any other call stays outstanding until its promise settles later. -/
def issueEvs (src : Nat → SrcCall α ε) (c : Nat) : List Ev :=
  match src c with
  | .raise _ => [.issue c, .settle c]
  | _ => [.issue c]

/-- One invocation of the adapter's `next` (fetch-next.ts lines 14-31),
starting from state `s`, as the j-th pull.  Returns the pull's outcome,
the events from the start of this pull up to (and including) the delivery
of its result to the consumer, and the state at that delivery.

* `pending = none` (first pull): `next = iterator.next()` is called inline
  (issue `s.calls`).  A synchronous throw propagates out of `next` before
  `pending` is assigned.  Otherwise the pull returns `next`; when `next`
  settles fulfilled the registered `then` performs the lookahead call
  `s.calls + 1`, and when it rejects the `catch` neutralizes `pending`.
* `pending = some p`: `next = pending`; no call is made synchronously.
  The current call (number `s.calls - 1` for a `fromCall` slot) settles
  either before or after the `pull` event, per the schedule bit `b`; its
  fulfilment triggers the lookahead call `s.calls` from the `then`
  callback, its rejection triggers the `catch` instead (no call).  A
  `neutral` slot is already settled, so the `then` reaction (lookahead
  call `s.calls`) is queued at registration.

In every case the adapter's reaction is registered on the awaited promise
before the consumer's continuation, so `issue`/`catch` effects precede
`deliver`. -/
def step (src : Nat → SrcCall α ε) (j : Nat) (b : Bool) (s : AState α ε) :
    PullOut α ε × List Ev × AState α ε :=
  match s with
  | ⟨none, c⟩ =>
    match src c with
    | .raise e => (.raised e, [.pull j, .issue c, .settle c], ⟨none, c + 1⟩)
    | .item v =>
        (.ret (.item v),
         [.pull j, .issue c, .settle c] ++ issueEvs src (c + 1) ++ [.deliver j],
         ⟨some (pendAfterCall src (c + 1)), c + 2⟩)
    | .stop =>
        (.ret .stop,
         [.pull j, .issue c, .settle c] ++ issueEvs src (c + 1) ++ [.deliver j],
         ⟨some (pendAfterCall src (c + 1)), c + 2⟩)
    | .fail e =>
        (.ret (.fail e),
         [.pull j, .issue c, .settle c, .deliver j],
         ⟨some .neutral, c + 1⟩)
  | ⟨some (.fromCall r), c⟩ =>
    match r with
    | .item v =>
        (.ret (.item v),
         (if b then [Ev.settle (c - 1), Ev.pull j] else [Ev.pull j, Ev.settle (c - 1)])
           ++ issueEvs src c ++ [.deliver j],
         ⟨some (pendAfterCall src c), c + 1⟩)
    | .stop =>
        (.ret .stop,
         (if b then [Ev.settle (c - 1), Ev.pull j] else [Ev.pull j, Ev.settle (c - 1)])
           ++ issueEvs src c ++ [.deliver j],
         ⟨some (pendAfterCall src c), c + 1⟩)
    | .fail e =>
        (.ret (.fail e),
         (if b then [Ev.settle (c - 1), Ev.pull j] else [Ev.pull j, Ev.settle (c - 1)])
           ++ [.deliver j],
         ⟨some .neutral, c⟩)
  | ⟨some .neutral, c⟩ =>
    (.ret .stop,
     [Ev.pull j] ++ issueEvs src c ++ [.deliver j],
     ⟨some (pendAfterCall src c), c + 1⟩)

/-- Adapter state after the first k pulls have been made and delivered,
under settlement schedule `sched`. -/
def run (src : Nat → SrcCall α ε) (sched : Nat → Bool) : Nat → AState α ε
  | 0 => ⟨none, 0⟩
  | k + 1 => (step src k (sched k) (run src sched k)).2.2

/-- Outcome of the k-th pull (k counted from 0) under schedule `sched`. -/
def pullOut (src : Nat → SrcCall α ε) (sched : Nat → Bool) (k : Nat) : PullOut α ε :=
  (step src k (sched k) (run src sched k)).1

/-- Event trace of the first k pulls, in global order. -/
def evTrace (src : Nat → SrcCall α ε) (sched : Nat → Bool) : Nat → List Ev
  | 0 => []
  | k + 1 => evTrace src sched k ++ (step src k (sched k) (run src sched k)).2.1

/-- Number of `iterator.next()` calls a pull from state `s` performs
synchronously, inside the `next` method body itself, before the method
returns: one when `pending` is uninitialized (`pending ?? iterator.next()`
evaluates the right operand), zero otherwise — every other upstream call
is made from a settlement callback. -/
def syncIssueCount (s : AState α ε) : Nat :=
  match s.pending with
  | none => 1
  | some _ => 0

/-- Number of issued-but-unsettled upstream requests encoded by a state:
one when `pending` adopted a call whose settlement is still pending in the
trace, zero for an uninitialized or neutralized slot. -/
def openOf (s : AState α ε) : Nat :=
  match s.pending with
  | some (.fromCall _) => 1
  | _ => 0

/-- Running count of outstanding upstream requests: `issue` opens one,
`settle` closes one, consumer events do not touch it. -/
def upd (n : Nat) : Ev → Nat
  | .issue _ => n + 1
  | .settle _ => n - 1
  | _ => n

/-- Outstanding-request count after a list of events, starting from n. -/
def reqOpen : Nat → List Ev → Nat
  | n, [] => n
  | n, e :: es => reqOpen (upd n e) es

/-- True when, starting from n outstanding requests, the outstanding count
stays at most 1 at every point of the event list. -/
def okOpen : Nat → List Ev → Bool
  | n, [] => decide (n ≤ 1)
  | n, e :: es => decide (n ≤ 1) && okOpen (upd n e) es

/-- Number of `issue` events (upstream requests made) in a trace. -/
def countIssues (evs : List Ev) : Nat :=
  evs.countP (fun e => match e with | .issue _ => true | _ => false)

/-- `a` occurs strictly before `b` in the event list. -/
def Precedes (evs : List Ev) (a b : Ev) : Prop :=
  ∃ l₁ l₂ l₃, evs = l₁ ++ a :: (l₂ ++ b :: l₃)

/-- Source behaving like an async generator yielding the items of `vs`:
call k fulfils with item k while k < vs.length, every later call fulfils
with `{done: true}`. -/
def listSrc (vs : List α) : Nat → SrcCall α ε := fun k =>
  if h : k < vs.length then .item (vs.get ⟨k, h⟩) else .stop

/-- Source behaving like an async generator that yields the items of `pre`
and then throws: call `pre.length` rejects with e, and — as for any
generator finished by an exception — every later call fulfils with
`{done: true}`. -/
def listFailSrc (pre : List α) (e : ε) : Nat → SrcCall α ε := fun k =>
  if h : k < pre.length then .item (pre.get ⟨k, h⟩)
  else if k = pre.length then .fail e
  else .stop

/-- Source whose `next()` throws synchronously (instead of returning a
promise) on call `vs.length`, after yielding the items of `vs`; later
calls fulfil with `{done: true}`. -/
def raiseAtSrc (vs : List α) (e : ε) : Nat → SrcCall α ε := fun k =>
  if h : k < vs.length then .item (vs.get ⟨k, h⟩)
  else if k = vs.length then .raise e
  else .stop

/-- The adapter's output sequence viewed as a source for a further
`fetchNext` layer: call k of the wrapped iterable is the adapter's k-th
pull.  (Pull outcomes are schedule independent, so the default schedule is
used.) -/
def outSrc (src : Nat → SrcCall α ε) : Nat → SrcCall α ε := fun k =>
  match pullOut src (fun _ => false) k with
  | .ret (.item v) => .item v
  | .ret .stop => .stop
  | .ret (.fail e) => .fail e
  | .raised e => .raise e

/-! ### Shape of the state after sequential pulls -/

/-- A pull whose state holds a settled-or-pending slot returns the slot's
value: the adapter hands the consumer exactly what `pending` resolves to. -/
theorem pullOut_pending (src : Nat → SrcCall α ε) (sched : Nat → Bool) (k : Nat)
    (p : Pend α ε) (c : Nat) (h : run src sched k = ⟨some p, c⟩) :
    pullOut src sched k = .ret p.res := by
  unfold pullOut
  rw [h]
  cases p with
  | fromCall r => cases r <;> simp [step, Pend.res]
  | neutral => simp [step, Pend.res]

/-- On a source that never rejects (and does not throw synchronously on the
first call), after k ≥ 1 pulls the slot holds the adoption of call k and
exactly k+1 upstream calls have been issued: each settled pull triggers
precisely one further `iterator.next()`. -/
theorem run_noFail (src : Nat → SrcCall α ε) (sched : Nat → Bool)
    (hf : ∀ c e, src c ≠ .fail e) (h0 : ∀ e, src 0 ≠ .raise e) :
    ∀ k, 1 ≤ k → run src sched k = ⟨some (pendAfterCall src k), k + 1⟩ := by
  intro k hk
  induction k with
  | zero => omega
  | succ n ih =>
    by_cases hn : n = 0
    · subst hn
      cases h : src 0 with
      | item v => simp [run, step, h, issueEvs, pendAfterCall]
      | stop => simp [run, step, h, issueEvs, pendAfterCall]
      | fail e => exact absurd h (hf 0 e)
      | raise e => exact absurd h (h0 e)
    · have h1 : 1 ≤ n := by omega
      have hr := ih h1
      show (step src n (sched n) (run src sched n)).2.2 = _
      rw [hr]
      cases hp : src n with
      | item v => simp [step, pendAfterCall, hp]
      | stop => simp [step, pendAfterCall, hp]
      | fail e => exact absurd hp (hf n e)
      | raise e => simp [step, pendAfterCall, hp]

/-- Same shape when all calls strictly before k fulfil with items (the
calls from k onward are unconstrained, they have not yet settled by then). -/
theorem run_items (src : Nat → SrcCall α ε) (sched : Nat → Bool) :
    ∀ k, 1 ≤ k → (∀ j, j < k → ∃ v, src j = .item v) →
      run src sched k = ⟨some (pendAfterCall src k), k + 1⟩ := by
  intro k hk hb
  induction k with
  | zero => omega
  | succ n ih =>
    by_cases hn : n = 0
    · subst hn
      obtain ⟨v, hv⟩ := hb 0 (by omega)
      simp [run, step, hv, pendAfterCall]
    · have h1 : 1 ≤ n := by omega
      have hr := ih h1 (fun j hj => hb j (by omega))
      show (step src n (sched n) (run src sched n)).2.2 = _
      rw [hr]
      obtain ⟨v, hv⟩ := hb n (by omega)
      simp [step, pendAfterCall, hv]

/-- The first pull returns exactly what the first direct call to the
source returns, including a synchronous throw. -/
theorem pullOut_zero (src : Nat → SrcCall α ε) (sched : Nat → Bool) :
    pullOut src sched 0 = toRes (src 0) := by
  cases h : src 0 <;> simp [pullOut, run, step, toRes, h]

/-- Pull outcomes agree with direct source outcomes at every index up to
and including the first non-item outcome, for sources whose calls before k
all fulfil with items and whose call k does not throw synchronously. -/
theorem pullOut_items (src : Nat → SrcCall α ε) (sched : Nat → Bool) (k : Nat)
    (hb : ∀ j, j < k → ∃ v, src j = .item v) (hk : ∀ e, src k ≠ .raise e) :
    pullOut src sched k = toRes (src k) := by
  cases k with
  | zero => exact pullOut_zero src sched
  | succ n =>
    have hr := run_items src sched (n + 1) (by omega) hb
    rw [pullOut_pending src sched (n + 1) _ _ hr]
    cases h : src (n + 1) with
    | item v => simp [pendAfterCall, h, Pend.res, toRes]
    | stop => simp [pendAfterCall, h, Pend.res, toRes]
    | fail e => simp [pendAfterCall, h, Pend.res, toRes]
    | raise e => exact absurd h (hk e)

/-- Pull outcomes agree with direct source outcomes everywhere on sources
that never reject and never throw synchronously. -/
theorem pullOut_noFail (src : Nat → SrcCall α ε) (sched : Nat → Bool) (k : Nat)
    (hf : ∀ c e, src c ≠ .fail e) (h0 : ∀ e, src 0 ≠ .raise e)
    (hk : ∀ e, src k ≠ .raise e) :
    pullOut src sched k = toRes (src k) := by
  cases k with
  | zero => exact pullOut_zero src sched
  | succ n =>
    have hr := run_noFail src sched hf h0 (n + 1) (by omega)
    rw [pullOut_pending src sched (n + 1) _ _ hr]
    cases h : src (n + 1) with
    | item v => simp [pendAfterCall, h, Pend.res, toRes]
    | stop => simp [pendAfterCall, h, Pend.res, toRes]
    | fail e => simp [pendAfterCall, h, Pend.res, toRes]
    | raise e => exact absurd h (hk e)

/-! ### The finite item source -/

theorem listSrc_lt (vs : List α) {k : Nat} (h : k < vs.length) :
    (listSrc vs : Nat → SrcCall α ε) k = .item (vs.get ⟨k, h⟩) := by
  simp [listSrc, h]

theorem listSrc_ge (vs : List α) {k : Nat} (h : vs.length ≤ k) :
    (listSrc vs : Nat → SrcCall α ε) k = .stop := by
  simp [listSrc, Nat.not_lt.mpr h]

theorem listSrc_noFail (vs : List α) (c : Nat) (e : ε) :
    (listSrc vs : Nat → SrcCall α ε) c ≠ .fail e := by
  unfold listSrc
  split <;> simp

theorem listSrc_noRaise (vs : List α) (c : Nat) (e : ε) :
    (listSrc vs : Nat → SrcCall α ε) c ≠ .raise e := by
  unfold listSrc
  split <;> simp

/-- Pulling the adapter over the finite item source gives exactly the
source's own outcomes: item k for k < length, end of sequence beyond. -/
theorem pullOut_listSrc (vs : List α) (sched : Nat → Bool) (k : Nat) :
    pullOut (listSrc vs : Nat → SrcCall α ε) sched k = toRes (listSrc vs k) :=
  pullOut_noFail _ sched k (listSrc_noFail vs) (listSrc_noRaise vs 0)
    (listSrc_noRaise vs k)

/-! ### Failing sources -/

theorem listFailSrc_lt (pre : List α) (e : ε) {k : Nat} (h : k < pre.length) :
    listFailSrc pre e k = .item (pre.get ⟨k, h⟩) := by
  simp [listFailSrc, h]

theorem listFailSrc_eq (pre : List α) (e : ε) :
    listFailSrc pre e pre.length = .fail e := by
  simp [listFailSrc]

theorem listFailSrc_gt (pre : List α) (e : ε) {k : Nat} (h : pre.length < k) :
    listFailSrc pre e k = .stop := by
  have h1 : ¬k < pre.length := by omega
  have h2 : ¬k = pre.length := by omega
  simp [listFailSrc, h1, h2]

/-- After the pull that surfaces a rejection of call i (all earlier calls
having fulfilled with items), the slot holds the neutralized done promise
installed by the `catch`, and the rejection triggered no lookahead: still
only calls 0..i have been issued. -/
theorem run_fail_succ (src : Nat → SrcCall α ε) (sched : Nat → Bool) (i : Nat)
    (e : ε) (hb : ∀ j, j < i → ∃ v, src j = .item v) (hi : src i = .fail e) :
    run src sched (i + 1) = ⟨some .neutral, i + 1⟩ := by
  cases i with
  | zero => simp [run, step, hi]
  | succ n =>
    have hr := run_items src sched (n + 1) (by omega) hb
    show (step src (n + 1) (sched (n + 1)) (run src sched (n + 1))).2.2 = _
    rw [hr]
    simp [step, pendAfterCall, hi]

/-- From the pull after a surfaced failure onward, on a source that (like
any async generator terminated by a throw) keeps fulfilling with done
after the rejection, the slot keeps adopting fresh done-returning calls:
every later pull costs one further upstream call. -/
theorem run_afterFail (pre : List α) (e : ε) (sched : Nat → Bool) :
    ∀ m, 1 ≤ m →
      run (listFailSrc pre e) sched (pre.length + 1 + m) =
        ⟨some (.fromCall .stop), pre.length + 1 + m⟩ := by
  intro m hm
  induction m with
  | zero => omega
  | succ n ih =>
    by_cases hn : n = 0
    · subst hn
      have hr := run_fail_succ (listFailSrc pre e) sched pre.length e
        (fun j hj => ⟨pre.get ⟨j, hj⟩, listFailSrc_lt pre e hj⟩)
        (listFailSrc_eq pre e)
      show (step (listFailSrc pre e) _ _
        (run (listFailSrc pre e) sched (pre.length + 1))).2.2 = _
      rw [hr]
      simp [step, pendAfterCall, listFailSrc_gt pre e (by omega : pre.length < pre.length + 1)]
    · have h1 : 1 ≤ n := by omega
      have hr := ih h1
      show (step (listFailSrc pre e) _ _
        (run (listFailSrc pre e) sched (pre.length + 1 + n))).2.2 = _
      rw [hr]
      have hgt : pre.length < pre.length + 1 + n := by omega
      simp [step, pendAfterCall, listFailSrc_gt pre e hgt]
      omega

/-! ### Outstanding-request bookkeeping over traces -/

theorem reqOpen_append (n : Nat) (a b : List Ev) :
    reqOpen n (a ++ b) = reqOpen (reqOpen n a) b := by
  induction a generalizing n with
  | nil => rfl
  | cons e es ih =>
    simp only [List.cons_append, reqOpen]
    exact ih (upd n e)

theorem okOpen_head (n : Nat) (b : List Ev) :
    okOpen n b = (decide (n ≤ 1) && okOpen n b) := by
  cases b with
  | nil => simp [okOpen]
  | cons e es =>
    rw [okOpen]
    cases hd : decide (n ≤ 1) <;> simp

theorem okOpen_append (n : Nat) (a b : List Ev) :
    okOpen n (a ++ b) = (okOpen n a && okOpen (reqOpen n a) b) := by
  induction a generalizing n with
  | nil =>
    simpa [okOpen, reqOpen] using okOpen_head n b
  | cons e es ih =>
    show (decide (n ≤ 1) && okOpen (upd n e) (es ++ b)) = _
    rw [ih (upd n e), okOpen, reqOpen, Bool.and_assoc]

/-- Within the events of a single pull the outstanding-request count never
exceeds one, and it ends at the value encoded by the post-pull state. -/
theorem step_open (src : Nat → SrcCall α ε) (j : Nat) (b : Bool) (s : AState α ε) :
    okOpen (openOf s) (step src j b s).2.1 = true ∧
    reqOpen (openOf s) (step src j b s).2.1 = openOf (step src j b s).2.2 := by
  obtain ⟨p, c⟩ := s
  cases p with
  | none =>
    cases h1 : src c with
    | raise e => simp [step, h1, openOf, okOpen, reqOpen, upd]
    | item v =>
      cases h2 : src (c + 1) <;>
        simp [step, h1, h2, openOf, okOpen, reqOpen, upd, issueEvs, pendAfterCall]
    | stop =>
      cases h2 : src (c + 1) <;>
        simp [step, h1, h2, openOf, okOpen, reqOpen, upd, issueEvs, pendAfterCall]
    | fail e => simp [step, h1, openOf, okOpen, reqOpen, upd]
  | some pd =>
    cases pd with
    | neutral =>
      cases h2 : src c <;>
        simp [step, h2, openOf, okOpen, reqOpen, upd, issueEvs, pendAfterCall]
    | fromCall r =>
      cases r with
      | item v =>
        cases h2 : src c <;> cases b <;>
          simp [step, h2, openOf, okOpen, reqOpen, upd, issueEvs, pendAfterCall]
      | stop =>
        cases h2 : src c <;> cases b <;>
          simp [step, h2, openOf, okOpen, reqOpen, upd, issueEvs, pendAfterCall]
      | fail e =>
        cases b <;> simp [step, openOf, okOpen, reqOpen, upd]

/-- Trace invariant: after any number of pulls, under any schedule, the
outstanding count matches the state and never exceeded one. -/
theorem evTrace_open (src : Nat → SrcCall α ε) (sched : Nat → Bool) :
    ∀ k, reqOpen 0 (evTrace src sched k) = openOf (run src sched k) ∧
      okOpen 0 (evTrace src sched k) = true := by
  intro k
  induction k with
  | zero => exact ⟨rfl, rfl⟩
  | succ n ih =>
    obtain ⟨h1, h2⟩ := ih
    have hs := step_open src n (sched n) (run src sched n)
    constructor
    · show reqOpen 0 (evTrace src sched n ++ _) = _
      rw [reqOpen_append, h1, hs.2]
      rfl
    · show okOpen 0 (evTrace src sched n ++ _) = true
      rw [okOpen_append, h2, h1, hs.1]
      rfl

/-! ### Ordering of events in a trace -/

theorem precedes_append_right {ys : List Ev} (xs : List Ev) {a b : Ev}
    (h : Precedes ys a b) : Precedes (xs ++ ys) a b := by
  obtain ⟨l₁, l₂, l₃, h⟩ := h
  exact ⟨xs ++ l₁, l₂, l₃, by simp [h]⟩

theorem precedes_of_mem_append {xs ys : List Ev} {a b : Ev}
    (h₁ : a ∈ xs) (h₂ : b ∈ ys) : Precedes (xs ++ ys) a b := by
  obtain ⟨s, t, h⟩ := List.append_of_mem h₁
  obtain ⟨u, v, h'⟩ := List.append_of_mem h₂
  refine ⟨s, t ++ u, v, ?_⟩
  subst h h'
  simp

theorem pendAfterCall_item {src : Nat → SrcCall α ε} {c : Nat} {v : α}
    (h : src c = .item v) : pendAfterCall src c = .fromCall (.item v) := by
  simp [pendAfterCall, h]

theorem pendAfterCall_stop {src : Nat → SrcCall α ε} {c : Nat}
    (h : src c = .stop) : pendAfterCall src c = .fromCall .stop := by
  simp [pendAfterCall, h]

theorem issueEvs_listSrc (vs : List α) (c : Nat) :
    issueEvs (listSrc vs : Nat → SrcCall α ε) c = [.issue c] := by
  cases h : (listSrc vs : Nat → SrcCall α ε) c with
  | raise e => exact absurd h (listSrc_noRaise vs c e)
  | item v => simp [issueEvs, h]
  | stop => simp [issueEvs, h]
  | fail e => simp [issueEvs, h]

/-- On the finite item source the lookahead call k is issued within the
events of pull k-1 (for 1 ≤ k ≤ length): it is in the trace of the first
k pulls. -/
theorem issue_mem_evTrace (vs : List α) (sched : Nat → Bool) {k : Nat}
    (h1 : 1 ≤ k) (h2 : k < vs.length) :
    Ev.issue k ∈ evTrace (listSrc vs : Nat → SrcCall α ε) sched k := by
  cases k with
  | zero => omega
  | succ n =>
    show Ev.issue (n + 1) ∈
      evTrace (listSrc vs : Nat → SrcCall α ε) sched n ++
        (step (listSrc vs) n (sched n) (run (listSrc vs) sched n)).2.1
    cases n with
    | zero =>
      have h0 : (0 : Nat) < vs.length := by omega
      simp [run, step, listSrc_lt vs h0, issueEvs_listSrc]
    | succ m =>
      have hm : m + 1 < vs.length := by omega
      have hr := run_noFail (listSrc vs : Nat → SrcCall α ε) sched
        (listSrc_noFail vs) (listSrc_noRaise vs 0) (m + 1) (by omega)
      rw [hr, pendAfterCall_item (listSrc_lt vs hm)]
      simp [step, issueEvs_listSrc]

/-- The events of pull k on the finite item source, 1 ≤ k < length: the
current call settles (before or after the pull event per the schedule),
its fulfilment triggers the lookahead call k+1, and only then is item k
delivered. -/
theorem evTrace_succ_item (vs : List α) (sched : Nat → Bool) {k : Nat}
    (h1 : 1 ≤ k) (h2 : k < vs.length) :
    evTrace (listSrc vs : Nat → SrcCall α ε) sched (k + 1) =
      evTrace (listSrc vs : Nat → SrcCall α ε) sched k ++
        ((if sched k then [Ev.settle k, Ev.pull k] else [Ev.pull k, Ev.settle k])
          ++ ([Ev.issue (k + 1)] ++ [Ev.deliver k])) := by
  have hr := run_noFail (listSrc vs : Nat → SrcCall α ε) sched
    (listSrc_noFail vs) (listSrc_noRaise vs 0) k h1
  show evTrace (listSrc vs : Nat → SrcCall α ε) sched k ++
      (step (listSrc vs) k (sched k) (run (listSrc vs) sched k)).2.1 = _
  rw [hr, pendAfterCall_item (listSrc_lt vs h2)]
  simp [step, issueEvs_listSrc]

/-- The events of the first pull on a source whose first two calls are
known not to throw synchronously. -/
theorem evTrace_one_item (vs : List α) (sched : Nat → Bool)
    (h0 : (0 : Nat) < vs.length) :
    evTrace (listSrc vs : Nat → SrcCall α ε) sched 1 =
      [Ev.pull 0, Ev.issue 0, Ev.settle 0, Ev.issue 1, Ev.deliver 0] := by
  show ([] : List Ev) ++ (step (listSrc vs) 0 (sched 0) (run (listSrc vs) sched 0)).2.1 = _
  simp [run, step, listSrc_lt vs h0, issueEvs_listSrc]

/-! ### The adapter's output as a source: chaining -/

/-- One adapter layer over the finite item source is observationally the
finite item source again. -/
theorem outSrc_listSrc (vs : List α) :
    outSrc (listSrc vs : Nat → SrcCall α ε) = listSrc vs := by
  funext k
  simp only [outSrc]
  rw [pullOut_listSrc vs (fun _ => false) k]
  by_cases h : k < vs.length
  · rw [listSrc_lt vs h]
    rfl
  · rw [listSrc_ge vs (Nat.le_of_not_lt h)]
    rfl

/-- Any tower of adapter layers over the finite item source is
observationally the finite item source. -/
theorem outSrc_iter_listSrc (vs : List α) (M : Nat) :
    outSrc^[M] (listSrc vs : Nat → SrcCall α ε) = listSrc vs := by
  induction M with
  | zero => rfl
  | succ n ih => rw [Function.iterate_succ_apply', ih, outSrc_listSrc]

/-! ### The synchronously-throwing source -/

theorem raiseAtSrc_lt (vs : List α) (e : ε) {k : Nat} (h : k < vs.length) :
    raiseAtSrc vs e k = .item (vs.get ⟨k, h⟩) := by
  simp [raiseAtSrc, h]

theorem raiseAtSrc_eq (vs : List α) (e : ε) :
    raiseAtSrc vs e vs.length = .raise e := by
  simp [raiseAtSrc]

theorem raiseAtSrc_noFail (vs : List α) (e : ε) (c : Nat) (e' : ε) :
    raiseAtSrc vs e c ≠ .fail e' := by
  unfold raiseAtSrc
  split
  · simp
  · split <;> simp

/-! ## Claim theorems -/

/-- C1: Value/order fidelity.  For every source whose calls before k all
succeed with items (and whose call k returns a promise rather than
throwing synchronously), the adapter's k-th pull returns the same item,
end-of-sequence, or error outcome that the source's k-th pull would
return.  This covers every k up to and including the first
end-of-sequence of an N-item source, and the failing position of a source
whose k-th request rejects. -/
theorem value_order_fidelity (src : Nat → SrcCall α ε) (sched : Nat → Bool)
    (k : Nat) (hb : ∀ j, j < k → ∃ v, src j = .item v)
    (hk : ∀ e, src k ≠ .raise e) :
    pullOut src sched k = toRes (src k) :=
  pullOut_items src sched k hb hk

theorem value_order_fidelity_witness :
    (∀ j, j < 1 → ∃ v, (listSrc [7, 8] : Nat → SrcCall Nat Nat) j = .item v) ∧
    (∀ e, (listSrc [7, 8] : Nat → SrcCall Nat Nat) 1 ≠ .raise e) ∧
    pullOut (listSrc [7, 8] : Nat → SrcCall Nat Nat) (fun _ => false) 1 =
      toRes ((listSrc [7, 8] : Nat → SrcCall Nat Nat) 1) := by
  have h1 : ∀ j, j < 1 → ∃ v, (listSrc [7, 8] : Nat → SrcCall Nat Nat) j = .item v := by
    intro j hj
    have hj0 : j = 0 := by omega
    subst hj0
    exact ⟨7, by decide⟩
  have h2 : ∀ e, (listSrc [7, 8] : Nat → SrcCall Nat Nat) 1 ≠ .raise e :=
    fun e => @listSrc_noRaise Nat Nat [7, 8] 1 e
  exact ⟨h1, h2, value_order_fidelity _ _ 1 h1 h2⟩

/-- C2: Single-flight invariant.  For every source, every settlement
schedule and every number of sequential pulls, at each point of the event
trace at most one upstream request is issued-but-unsettled: the adapter
never has two upstream calls simultaneously outstanding, and never issues
a new call before the previous one settled. -/
theorem single_flight (src : Nat → SrcCall α ε) (sched : Nat → Bool) (k : Nat) :
    okOpen 0 (evTrace src sched k) = true :=
  (evTrace_open src sched k).2

/-- C3 counterexample: on the empty source the first pull observes
end-of-sequence (call 0 fulfils with done), yet the trace of that single
pull already contains a second `issue` event — the `then` callback runs
`iterator.next()` regardless of `done` — and a second pull adds a third.
This contradicts the claim that no further upstream request is ever
issued once the source has signalled end-of-sequence. -/
theorem post_done_requests_cex :
    pullOut (listSrc ([] : List Nat) : Nat → SrcCall Nat Nat) (fun _ => false) 0 =
      .ret .stop ∧
    countIssues
      (evTrace (listSrc ([] : List Nat) : Nat → SrcCall Nat Nat) (fun _ => false) 1) = 2 ∧
    countIssues
      (evTrace (listSrc ([] : List Nat) : Nat → SrcCall Nat Nat) (fun _ => false) 2) = 3 := by
  decide

/-- C3 amended: after the source signals end-of-sequence the adapter keeps
returning end-of-sequence to the consumer, but each settled pull still
triggers exactly one further `iterator.next()` call (which, on a
well-behaved exhausted source, immediately reports done again): after k+1
pulls, k+2 upstream calls have been issued. -/
theorem post_done_requests_amended (vs : List α) (sched : Nat → Bool) (k : Nat)
    (h : vs.length ≤ k) :
    pullOut (listSrc vs : Nat → SrcCall α ε) sched k = .ret .stop ∧
    (run (listSrc vs : Nat → SrcCall α ε) sched (k + 1)).calls = k + 2 := by
  constructor
  · rw [pullOut_listSrc, listSrc_ge vs h]
    rfl
  · rw [run_noFail _ sched (listSrc_noFail vs) (listSrc_noRaise vs 0) (k + 1) (by omega)]

theorem post_done_requests_amended_witness :
    ([4] : List Nat).length ≤ 1 ∧
    (pullOut (listSrc [4] : Nat → SrcCall Nat Nat) (fun _ => false) 1 = .ret .stop ∧
     (run (listSrc [4] : Nat → SrcCall Nat Nat) (fun _ => false) 2).calls = 3) :=
  ⟨by decide, post_done_requests_amended [4] (fun _ => false) 1 (by decide)⟩

/-- C4: Error ordering.  For every source whose calls before i fulfil with
items and whose i-th call rejects with e: pulls 0..i-1 return exactly the
items, pull i fails with exactly e, and after pull i only calls 0..i have
ever been issued — the rejection fires the `catch` (not the `then`), so no
upstream request for any position after i is attempted. -/
theorem error_ordering (src : Nat → SrcCall α ε) (sched : Nat → Bool)
    (i : Nat) (e : ε) (hb : ∀ j, j < i → ∃ v, src j = .item v)
    (hi : src i = .fail e) :
    (∀ k, k < i → pullOut src sched k = toRes (src k)) ∧
    pullOut src sched i = .ret (.fail e) ∧
    (run src sched (i + 1)).calls = i + 1 := by
  refine ⟨?_, ?_, ?_⟩
  · intro k hk
    refine pullOut_items src sched k (fun j hj => hb j (by omega)) ?_
    intro e' h'
    obtain ⟨v, hv⟩ := hb k hk
    rw [hv] at h'
    cases h'
  · have h := pullOut_items src sched i hb (fun e' h' => by rw [hi] at h'; cases h')
    rw [hi] at h
    exact h
  · rw [run_fail_succ src sched i e hb hi]

theorem error_ordering_witness :
    (∀ j, j < 2 → ∃ v, listFailSrc [5, 6] (99 : Nat) j = .item v) ∧
    listFailSrc [5, 6] (99 : Nat) 2 = .fail 99 ∧
    ((∀ k, k < 2 →
        pullOut (listFailSrc [5, 6] (99 : Nat)) (fun _ => false) k =
          toRes (listFailSrc [5, 6] (99 : Nat) k)) ∧
     pullOut (listFailSrc [5, 6] (99 : Nat)) (fun _ => false) 2 = .ret (.fail 99) ∧
     (run (listFailSrc [5, 6] (99 : Nat)) (fun _ => false) 3).calls = 3) := by
  have hb : ∀ j, j < 2 → ∃ v, listFailSrc [5, 6] (99 : Nat) j = .item v := by
    intro j hj
    rcases j with _ | _ | j
    · exact ⟨5, by decide⟩
    · exact ⟨6, by decide⟩
    · omega
  have hi : listFailSrc [5, 6] (99 : Nat) 2 = .fail 99 := by decide
  exact ⟨hb, hi, error_ordering _ _ 2 99 hb hi⟩

/-- C5 counterexample: a source whose very first call rejects (and, as for
any async generator, reports done afterwards).  Pull 0 surfaces the
failure; pull 1 returns end-of-sequence as claimed — but it raises the
upstream call count from 1 to 2: the adapter does attempt further
upstream work after the failure was surfaced, contradicting the claim's
"never attempts further upstream work". -/
theorem post_failure_cex :
    pullOut (listFailSrc ([] : List Nat) (7 : Nat)) (fun _ => false) 0 =
      .ret (.fail 7) ∧
    pullOut (listFailSrc ([] : List Nat) (7 : Nat)) (fun _ => false) 1 = .ret .stop ∧
    (run (listFailSrc ([] : List Nat) (7 : Nat)) (fun _ => false) 1).calls = 1 ∧
    (run (listFailSrc ([] : List Nat) (7 : Nat)) (fun _ => false) 2).calls = 2 := by
  decide

/-- C5 amended: after the pull that surfaces the failure of call
`pre.length`, every subsequent pull returns end-of-sequence (the failed
pending promise was neutralized by the catch handler, never re-surfaced,
and on a source that — like any async generator terminated by a throw —
reports done after the rejection, no later error ever appears); however
each such subsequent pull still issues one further `iterator.next()` call:
after pull `pre.length + m` the call count is `pre.length + 1 + m`. -/
theorem post_failure_amended (pre : List α) (e : ε) (sched : Nat → Bool)
    (m : Nat) (hm : 1 ≤ m) :
    pullOut (listFailSrc pre e) sched (pre.length + m) = .ret .stop ∧
    (run (listFailSrc pre e) sched (pre.length + 1 + m)).calls =
      pre.length + 1 + m := by
  constructor
  · rcases Nat.lt_or_ge m 2 with h2 | h2
    · have hm1 : m = 1 := by omega
      subst hm1
      have hr := run_fail_succ (listFailSrc pre e) sched pre.length e
        (fun j hj => ⟨pre.get ⟨j, hj⟩, listFailSrc_lt pre e hj⟩)
        (listFailSrc_eq pre e)
      rw [pullOut_pending _ sched _ _ _ hr]
      rfl
    · have hr := run_afterFail pre e sched (m - 1) (by omega)
      have he : pre.length + 1 + (m - 1) = pre.length + m := by omega
      rw [he] at hr
      rw [pullOut_pending _ sched _ _ _ hr]
      rfl
  · rw [run_afterFail pre e sched m hm]

theorem post_failure_amended_witness :
    1 ≤ 1 ∧
    (pullOut (listFailSrc [3] (9 : Nat)) (fun _ => false) 2 = .ret .stop ∧
     (run (listFailSrc [3] (9 : Nat)) (fun _ => false) 3).calls = 3) :=
  ⟨by decide, post_failure_amended [3] 9 (fun _ => false) 1 (by decide)⟩

/-- C6 counterexample: on a two-item source, pull 1 performs zero
synchronous upstream calls (`pending ?? iterator.next()` takes the left
operand, and nothing else in the method body calls the iterator), and the
trace shows the lookahead `issue 1` strictly after `settle 0` and
`issue 2` strictly after `settle 1`: the lookahead request is fired only
from the settlement callback of the current request, not synchronously
during the pull before awaiting it. -/
theorem lookahead_sync_cex :
    syncIssueCount (run (listSrc [10, 20] : Nat → SrcCall Nat Nat) (fun _ => false) 1) = 0 ∧
    evTrace (listSrc [10, 20] : Nat → SrcCall Nat Nat) (fun _ => false) 2 =
      [.pull 0, .issue 0, .settle 0, .issue 1, .deliver 0,
       .pull 1, .settle 1, .issue 2, .deliver 1] := by
  decide

/-- C6 amended: on every pull after the first the adapter issues no
upstream request synchronously; the new pending promise is created
synchronously, but the `iterator.next()` for the following item runs only
in the `then` callback, after the current item's request settles (and
before the current item is delivered): the lookahead overlaps the
consumer's processing of the current item, not the await of the current
request. -/
theorem lookahead_after_settle_amended (vs : List α) (sched : Nat → Bool)
    (k : Nat) (h1 : 1 ≤ k) (h2 : k < vs.length) :
    syncIssueCount (run (listSrc vs : Nat → SrcCall α ε) sched k) = 0 ∧
    Precedes (evTrace (listSrc vs : Nat → SrcCall α ε) sched (k + 1))
      (.settle k) (.issue (k + 1)) := by
  constructor
  · rw [run_noFail _ sched (listSrc_noFail vs) (listSrc_noRaise vs 0) k h1]
    rfl
  · have ht : evTrace (listSrc vs : Nat → SrcCall α ε) sched (k + 1) =
        (evTrace (listSrc vs : Nat → SrcCall α ε) sched k ++
          (if sched k then [Ev.settle k, Ev.pull k] else [Ev.pull k, Ev.settle k])) ++
        ([Ev.issue (k + 1)] ++ [Ev.deliver k]) := by
      rw [evTrace_succ_item vs sched h1 h2]
      simp [List.append_assoc]
    rw [ht]
    refine precedes_of_mem_append ?_ (by simp)
    rcases hcs : sched k <;> simp [hcs]

theorem lookahead_after_settle_amended_witness :
    1 ≤ 1 ∧ 1 < ([10, 20] : List Nat).length ∧
    (syncIssueCount (run (listSrc [10, 20] : Nat → SrcCall Nat Nat) (fun _ => true) 1) = 0 ∧
     Precedes (evTrace (listSrc [10, 20] : Nat → SrcCall Nat Nat) (fun _ => true) 2)
       (.settle 1) (.issue 2)) :=
  ⟨by decide, by decide,
    lookahead_after_settle_amended [10, 20] (fun _ => true) 1 (by decide) (by decide)⟩

/-- C7: Lookahead timing.  For every k below the source length and every
schedule, the upstream request for item k+1 is issued after the request
for item k was issued and before item k is delivered to the consumer:
the adapter has already initiated the next request by the time it hands
the current item over, and looks ahead only one sequential step. -/
theorem lookahead_timing (vs : List α) (sched : Nat → Bool) (k : Nat)
    (h : k < vs.length) :
    Precedes (evTrace (listSrc vs : Nat → SrcCall α ε) sched (k + 1))
      (.issue k) (.issue (k + 1)) ∧
    Precedes (evTrace (listSrc vs : Nat → SrcCall α ε) sched (k + 1))
      (.issue (k + 1)) (.deliver k) := by
  cases k with
  | zero =>
    have ht := @evTrace_one_item α ε vs sched (by omega)
    constructor
    · exact ⟨[Ev.pull 0], [Ev.settle 0], [Ev.deliver 0], by simp [ht]⟩
    · exact ⟨[Ev.pull 0, Ev.issue 0, Ev.settle 0], [], [], by simp [ht]⟩
  | succ n =>
    have h1 : 1 ≤ n + 1 := by omega
    have ht := @evTrace_succ_item α ε vs sched (n + 1) h1 h
    constructor
    · rw [ht]
      exact precedes_of_mem_append (issue_mem_evTrace vs sched h1 h) (by simp)
    · have ht2 : evTrace (listSrc vs : Nat → SrcCall α ε) sched (n + 1 + 1) =
          ((evTrace (listSrc vs : Nat → SrcCall α ε) sched (n + 1) ++
             (if sched (n + 1) then [Ev.settle (n + 1), Ev.pull (n + 1)]
              else [Ev.pull (n + 1), Ev.settle (n + 1)])) ++
           [Ev.issue (n + 1 + 1)]) ++ [Ev.deliver (n + 1)] := by
        rw [ht]
        simp [List.append_assoc]
      rw [ht2]
      exact precedes_of_mem_append (by simp) (by simp)

theorem lookahead_timing_witness :
    1 < ([1, 2] : List Nat).length ∧
    (Precedes (evTrace (listSrc [1, 2] : Nat → SrcCall Nat Nat) (fun _ => false) 2)
       (.issue 1) (.issue 2) ∧
     Precedes (evTrace (listSrc [1, 2] : Nat → SrcCall Nat Nat) (fun _ => false) 2)
       (.issue 2) (.deliver 1)) :=
  ⟨by decide, lookahead_timing [1, 2] (fun _ => false) 1 (by decide)⟩

/-- C8 counterexample: for the empty source the first pull does signal
end-of-sequence immediately, but the number of upstream requests already
issued once that pull has settled is 2, not 0: the pull itself called
`iterator.next()` inline (there is no other way to learn the source is
empty), and its settlement triggered the lookahead call. -/
theorem empty_source_cex :
    pullOut (listSrc ([] : List Nat) : Nat → SrcCall Nat Nat) (fun _ => false) 0 =
      .ret .stop ∧
    (run (listSrc ([] : List Nat) : Nat → SrcCall Nat Nat) (fun _ => false) 1).calls = 2 := by
  decide

/-- C8 amended: for the empty source the first pull immediately signals
end-of-sequence; exactly one upstream request is made synchronously by
that pull (the request that reports end-of-sequence), and by the time its
result has settled one further request has been triggered, for a total of
two — not zero. -/
theorem empty_source_amended (sched : Nat → Bool) :
    pullOut (listSrc ([] : List α) : Nat → SrcCall α ε) sched 0 = .ret .stop ∧
    syncIssueCount (run (listSrc ([] : List α) : Nat → SrcCall α ε) sched 0) = 1 ∧
    (run (listSrc ([] : List α) : Nat → SrcCall α ε) sched 1).calls = 2 := by
  refine ⟨?_, rfl, ?_⟩
  · rw [pullOut_listSrc]
    rfl
  · rw [run_noFail _ sched (listSrc_noFail []) (listSrc_noRaise [] 0) 1 (by omega)]

/-- C9: Chaining.  Wrapping the adapter M times around the finite item
source: (1) the tower yields exactly the source's values in the source's
order at every depth; (2) every individual layer satisfies the
single-flight invariant with respect to its own upstream; (3) each layer,
after serving k ≥ 1 settled pulls, has issued exactly k+1 requests to its
own upstream — one item of lookahead per layer — so k consumer pulls at
the top of M extra layers become k+M pulls at the innermost adapter,
which has then issued k+M+1 source calls: lookahead accumulates one item
per layer. -/
theorem chaining (vs : List α) (sched : Nat → Bool) (M k : Nat) (hk : 1 ≤ k) :
    (∀ M' k', pullOut (outSrc^[M'] (listSrc vs) : Nat → SrcCall α ε) sched k' =
      toRes (listSrc vs k')) ∧
    (∀ i k', okOpen 0
      (evTrace (outSrc^[i] (listSrc vs) : Nat → SrcCall α ε) sched k') = true) ∧
    (∀ i, (run (outSrc^[i] (listSrc vs) : Nat → SrcCall α ε) sched k).calls = k + 1) ∧
    (run (listSrc vs : Nat → SrcCall α ε) sched (k + M)).calls = k + M + 1 := by
  refine ⟨?_, ?_, ?_, ?_⟩
  · intro M' k'
    rw [outSrc_iter_listSrc]
    exact pullOut_listSrc vs sched k'
  · intro i k'
    rw [outSrc_iter_listSrc]
    exact (evTrace_open _ sched k').2
  · intro i
    rw [outSrc_iter_listSrc,
      run_noFail _ sched (listSrc_noFail vs) (listSrc_noRaise vs 0) k hk]
  · rw [run_noFail _ sched (listSrc_noFail vs) (listSrc_noRaise vs 0) (k + M) (by omega)]

theorem chaining_witness :
    1 ≤ 1 ∧
    ((∀ M' k', pullOut (outSrc^[M'] (listSrc [1, 2]) : Nat → SrcCall Nat Nat)
        (fun _ => false) k' = toRes (listSrc [1, 2] k')) ∧
     (∀ i k', okOpen 0
       (evTrace (outSrc^[i] (listSrc [1, 2]) : Nat → SrcCall Nat Nat)
         (fun _ => false) k') = true) ∧
     (∀ i, (run (outSrc^[i] (listSrc [1, 2]) : Nat → SrcCall Nat Nat)
       (fun _ => false) 1).calls = 2) ∧
     (run (listSrc [1, 2] : Nat → SrcCall Nat Nat) (fun _ => false) 3).calls = 4) :=
  ⟨by decide, chaining [1, 2] (fun _ => false) 2 1 (by decide)⟩

/-- C10: a source whose `next()` throws synchronously at position
`vs.length` ≥ 1 (after items 0..vs.length-1): the throw happens inside the
`then` callback, so the then-chain rejects, the `catch` resolves the
pending promise to `{done: true, value: undefined}`, and the pull for that
position reports end-of-sequence; the error is never surfaced on any
pull, neither as a synchronous throw nor as a rejection. -/
theorem sync_raise_swallowed (vs : List α) (e : ε) (sched : Nat → Bool)
    (hne : vs ≠ []) :
    pullOut (raiseAtSrc vs e) sched vs.length = .ret .stop ∧
    (∀ k, pullOut (raiseAtSrc vs e) sched k ≠ .raised e) ∧
    (∀ k, pullOut (raiseAtSrc vs e) sched k ≠ .ret (.fail e)) := by
  have hlen : 1 ≤ vs.length := by
    cases vs with
    | nil => exact absurd rfl hne
    | cons a l => simp
  have hf : ∀ c e', raiseAtSrc vs e c ≠ .fail e' := raiseAtSrc_noFail vs e
  have h0 : ∀ e', raiseAtSrc vs e 0 ≠ .raise e' := by
    intro e' h
    rw [raiseAtSrc_lt vs e (show 0 < vs.length from hlen)] at h
    cases h
  refine ⟨?_, ?_, ?_⟩
  · rw [pullOut_pending _ sched _ _ _
      (run_noFail _ sched hf h0 vs.length hlen)]
    rw [show pendAfterCall (raiseAtSrc vs e) vs.length = .neutral from by
      simp [pendAfterCall, raiseAtSrc_eq vs e]]
    rfl
  · intro k
    cases k with
    | zero =>
      rw [pullOut_zero, raiseAtSrc_lt vs e (show 0 < vs.length from hlen)]
      simp [toRes]
    | succ n =>
      rw [pullOut_pending _ sched _ _ _ (run_noFail _ sched hf h0 (n + 1) (by omega))]
      simp
  · intro k
    cases k with
    | zero =>
      rw [pullOut_zero, raiseAtSrc_lt vs e (show 0 < vs.length from hlen)]
      simp [toRes]
    | succ n =>
      rw [pullOut_pending _ sched _ _ _ (run_noFail _ sched hf h0 (n + 1) (by omega))]
      cases hsk : raiseAtSrc vs e (n + 1) with
      | item v => simp [pendAfterCall, hsk, Pend.res]
      | stop => simp [pendAfterCall, hsk, Pend.res]
      | raise e' => simp [pendAfterCall, hsk, Pend.res]
      | fail e' => exact absurd hsk (hf (n + 1) e')

theorem sync_raise_swallowed_witness :
    ([5] : List Nat) ≠ [] ∧
    (pullOut (raiseAtSrc [5] (42 : Nat)) (fun _ => false) 1 = .ret .stop ∧
     (∀ k, pullOut (raiseAtSrc [5] (42 : Nat)) (fun _ => false) k ≠ .raised 42) ∧
     (∀ k, pullOut (raiseAtSrc [5] (42 : Nat)) (fun _ => false) k ≠ .ret (.fail 42))) :=
  ⟨by decide, sync_raise_swallowed [5] 42 (fun _ => false) (by decide)⟩

end FetchNext
